import Mathlib

/-!
Verification of the synchronization and caching layer of the PackTrack
order/package tracking server (`src/server.js`).

The embedding below translates the server's handlers into pure Lean
functions over an explicit store state:

* A Firestore document of the `shipstation_orders` collection becomes a
  `Record`; the collection becomes a `List Record` kept in the store's
  document-enumeration order (documents are keyed by `orderNumber`,
  so well-formed stores have pairwise-distinct `orderNumber`s).
* The `system_meta/shipstation` document becomes an `Option Int`
  (`none` = document absent, `some t` = `{ lastSync: t }`).
* Epoch-millisecond timestamps are `Int` (JS numbers used as integral
  millisecond counts); JS truthiness of a timestamp is `t ≠ 0`, and of a
  string is `s ≠ ""`.  Ship dates, which the source stores as ISO date
  strings and compares via `new Date(...).getTime()`, are modelled
  directly as their epoch-millisecond value (Int); ISO date strings
  order lexicographically exactly as their timestamps order numerically,
  so `orderBy('shipDate')` and the comparator agree with this model.
* Firestore `set(..., { merge: true })` writes exactly the fields of the
  supplied payload and leaves all other fields of the document intact;
  this is modelled by structure-update functions that assign exactly the
  payload's fields.  Fields a document has never been given are modelled
  by the neutral values `""` / `0` / `false` (they are only ever
  inspected through JS-truthiness tests, which agree with this model).
* The upstream services (ShipStation order list, UPS tracking) are
  modelled as parameters: the order list as an `Except String (List
  RawOrder)` (exception = upstream call threw) and the carrier lookup by
  the status string the handler draws.  Each operation additionally
  returns a `Bool` recording whether control reached the upstream call.
* `Array.prototype.sort` with a consistent comparator `cmp` is a stable
  sort; it is modelled by `List.mergeSort` with `le a b := cmp a b ≤ 0`.
* The float label costs are modelled as integers: no property proved
  here inspects arithmetic on costs, only which fields are written.
* `toLocaleDateString`, used only to render a future delivery estimate,
  is locale-dependent; it is modelled by an injective rendering of the
  timestamp.  No property proved here inspects that string's contents.
-/

namespace PackTrack

/-- The cooldown window `SYNC_COOLDOWN_MS = 30 * 60 * 1000` (30 minutes)
from server.js. -/
def SYNC_COOLDOWN_MS : Int := 30 * 60 * 1000

/-- The dynamically-typed `flagged` field: the server writes booleans,
but documents may also carry the legacy string representation, which the
issues handler queries separately (`where('flagged','==','true')`). -/
inductive FlagRep where
  | b (x : Bool)
  | s (x : String)
deriving DecidableEq, Repr

/-- One document of the `shipstation_orders` collection. -/
structure Record where
  orderId : String := ""
  orderNumber : String := ""
  customerName : String := ""
  customerEmail : String := ""
  items : String := ""
  shipDate : Int := 0
  trackingNumber : String := ""
  carrierCode : String := ""
  status : String := ""
  lastUpdated : Int := 0
  upsStatus : String := ""
  delivered : Bool := false
  flagged : FlagRep := .b false
  labelCost : Int := 0
  location : String := ""
  expectedDelivery : String := ""
  trackingUrl : String := ""
deriving DecidableEq, Repr

abbrev Store := List Record

/-- Server-side state: order records plus the SyncMeta document
(`none` when `system_meta/shipstation` does not exist). -/
structure ServerState where
  records : Store
  meta : Option Int
deriving DecidableEq, Repr

/-- Substring test on character lists (JS `String.prototype.includes`). -/
def containsSub (p : List Char) : List Char → Bool
  | [] => p.isPrefixOf []
  | a :: t => p.isPrefixOf (a :: t) || containsSub p t

/-- Models `s.toLowerCase().includes(pat)` for an already-lowercase `pat`;
lowercasing is per-character (`Char.toLower`), which coincides with the
JS `toLowerCase` on the ASCII status vocabulary compared here. -/
def lowerContains (s pat : String) : Bool :=
  containsSub pat.toList (s.toList.map Char.toLower)

/-- Lexicographic order on character lists: a kernel-computable model
of the store's document-name (string) order, agreeing with the usual
string order on the keys used here. -/
def charListLt : List Char → List Char → Bool
  | [], [] => false
  | [], _ :: _ => true
  | _ :: _, [] => false
  | a :: as, b :: bs => a < b || (a == b && charListLt as bs)

/-- Document-name order used for Firestore implicit tie-breaking. -/
def strLtb (a b : String) : Bool :=
  charListLt a.toList b.toList

/-- JS `Math.ceil(a / b)` on integral inputs with positive divisor. -/
def jsCeilDiv (a b : Int) : Int := (a + b - 1) / b

/-- First document of a Firestore `where` query result
(`querySnap.docs[0]`), in the store's enumeration order. -/
def firstMatch (rs : Store) (tn : String) : Option Record :=
  (rs.filter fun r => decide (r.trackingNumber = tn)).head?

/-- One raw shipment item as returned by the ShipStation order source. -/
structure RawOrder where
  orderId : String := ""
  orderNumber : String := ""
  customerName : String := ""
  customerEmail : String := ""
  items : String := ""
  shipDate : Int := 0
  trackingNumber : String := ""
  carrierCode : String := ""
  orderStatus : String := ""
  shipmentCost : Int := 0
  insuranceCost : Int := 0
deriving DecidableEq, Repr

/-- The object literal produced by `cleanData(s, now)` in server.js:
exactly the fields the bulk sync writes. -/
structure CleanData where
  orderId : String
  orderNumber : String
  customerName : String
  customerEmail : String
  items : String
  shipDate : Int
  trackingNumber : String
  carrierCode : String
  status : String
  lastUpdated : Int
  upsStatus : String
  delivered : Bool
  flagged : FlagRep
  labelCost : Int
deriving DecidableEq, Repr

/-- The mapping `cleanData(s, now)` from server.js. -/
def cleanData (s : RawOrder) (now : Int) : CleanData :=
  { orderId := s.orderId
    orderNumber := s.orderNumber
    customerName := s.customerName
    customerEmail := s.customerEmail
    items := s.items
    shipDate := s.shipDate
    trackingNumber := s.trackingNumber
    carrierCode := s.carrierCode
    status := s.orderStatus
    lastUpdated := now
    upsStatus := "Pending"
    delivered := false
    flagged := .b false
    labelCost := s.shipmentCost + s.insuranceCost }

/-- Merge a `cleanData` payload onto an existing document
(`batch.set(docRef, order, { merge: true })` on an existing doc):
exactly the payload's fields are overwritten. -/
def applyClean (r : Record) (c : CleanData) : Record :=
  { r with
    orderId := c.orderId
    orderNumber := c.orderNumber
    customerName := c.customerName
    customerEmail := c.customerEmail
    items := c.items
    shipDate := c.shipDate
    trackingNumber := c.trackingNumber
    carrierCode := c.carrierCode
    status := c.status
    lastUpdated := c.lastUpdated
    upsStatus := c.upsStatus
    delivered := c.delivered
    flagged := c.flagged
    labelCost := c.labelCost }

/-- A fresh document created from a `cleanData` payload (merge-set on a
document that does not exist yet). -/
def freshOfClean (c : CleanData) : Record :=
  applyClean {} c

/-- Upsert one `cleanData` payload into the collection, keyed on
`orderNumber` (`db.collection(...).doc(order.orderNumber)` + merge-set). -/
def upsertClean (rs : Store) (c : CleanData) : Store :=
  if rs.any fun r => decide (r.orderNumber = c.orderNumber) then
    rs.map fun r =>
      if r.orderNumber = c.orderNumber then applyClean r c else r
  else
    rs ++ [freshOfClean c]

/-- Response of `POST /sync/orders`: `skipped` is the cooldown JSON
(`nextSyncIn` minutes), `ok` the success JSON (`count`), `err` the 500
response carrying the error message. -/
inductive SyncResp where
  | skipped (nextSyncIn : Int)
  | ok (count : Nat)
  | err (msg : String)
deriving DecidableEq, Repr

/-- Does the handler `POST /sync/orders` take the early-return cooldown
branch?  (`metaSnap.exists && now - lastSync < SYNC_COOLDOWN_MS`.) -/
def syncSkips (st : ServerState) (now : Int) : Bool :=
  match st.meta with
  | some lastSync => decide (now - lastSync < SYNC_COOLDOWN_MS)
  | none => false

/-- The handler of `POST /sync/orders` in server.js.  `upstream` is the
outcome of `fetchLiveOrders()`; the returned `Bool` records whether that
upstream call was reached. -/
def syncOrders (st : ServerState) (now : Int)
    (upstream : Except String (List RawOrder)) :
    SyncResp × ServerState × Bool :=
  match st.meta with
  | some lastSync =>
    if now - lastSync < SYNC_COOLDOWN_MS then
      (.skipped (jsCeilDiv (SYNC_COOLDOWN_MS - (now - lastSync)) 60000),
       st, false)
    else
      match upstream with
      | .error e => (.err e, st, true)
      | .ok raws =>
        let cleans := raws.map (cleanData · now)
        let records := cleans.foldl upsertClean st.records
        (.ok raws.length, ⟨records, some now⟩, true)
  | none =>
    match upstream with
    | .error e => (.err e, st, true)
    | .ok raws =>
      let cleans := raws.map (cleanData · now)
      let records := cleans.foldl upsertClean st.records
      (.ok raws.length, ⟨records, some now⟩, true)

/-- The `updateData` object literal built by `POST /tracking/single`. -/
structure UpdateData where
  upsStatus : String
  location : String
  expectedDelivery : String
  delivered : Bool
  trackingUrl : String
  lastUpdated : Int
deriving DecidableEq, Repr

/-- Stand-in for `new Date(t).toLocaleDateString()`: locale-dependent in
the source; modelled as an injective rendering of the timestamp.  Only
the identity of the written field matters to the properties below. -/
def jsLocaleDateString (t : Int) : String :=
  toString t

/-- Merge the refresh payload onto a matched document
(`batch.update(d.ref, updateData)`): exactly the payload's fields. -/
def applyUpdate (r : Record) (u : UpdateData) : Record :=
  { r with
    upsStatus := u.upsStatus
    location := u.location
    expectedDelivery := u.expectedDelivery
    delivered := u.delivered
    trackingUrl := u.trackingUrl
    lastUpdated := u.lastUpdated }

/-- Response of `POST /tracking/single`: a cached document, or the fresh
`updateData` object, or the 400 for a missing tracking number. -/
inductive TrackResp where
  | badRequest
  | record (r : Record)
  | update (u : UpdateData)
deriving DecidableEq, Repr

/-- The handler of `POST /tracking/single` in server.js.
`randomStatus` is the status the simulated carrier lookup draws; the
returned `Bool` records whether control reached that lookup. -/
def trackingSingle (rs : Store) (tn : String) (now : Int)
    (randomStatus : String) : TrackResp × Store × Bool :=
  if tn = "" then (.badRequest, rs, false)
  else
    let queryDocs := rs.filter fun r => decide (r.trackingNumber = tn)
    let gate : Option Record :=
      match queryDocs.head? with
      | some d =>
        if d.delivered = true ∨
            (d.upsStatus ≠ "" ∧ lowerContains d.upsStatus "delivered") then
          some d
        else if d.lastUpdated ≠ 0 ∧ now - d.lastUpdated < SYNC_COOLDOWN_MS then
          some d
        else none
      | none => none
    match gate with
    | some d => (.record d, rs, false)
    | none =>
      let isDelivered : Bool := decide (randomStatus = "Delivered")
      let u : UpdateData :=
        { upsStatus := randomStatus
          location :=
            if isDelivered then "Front Porch, Destination"
            else "Local Sort Facility, KY"
          expectedDelivery :=
            if isDelivered then "Delivered"
            else jsLocaleDateString (now + 172800000)
          delivered := isDelivered
          trackingUrl := "https://www.ups.com/track?tracknum=" ++ tn
          lastUpdated := now }
      let rs' :=
        if queryDocs.isEmpty then rs
        else rs.map fun r =>
          if r.trackingNumber = tn then applyUpdate r u else r
      (.update u, rs', true)

/-- The handler of `POST /flag` in server.js: merge-set of
`{ flagged: !!flagged, lastUpdated: now }` on the document keyed by
`orderNumber` (400 when the order number is missing leaves the store
unchanged). -/
def flagOp (rs : Store) (onum : String) (fl : Bool) (now : Int) : Store :=
  if onum = "" then rs
  else if rs.any fun r => decide (r.orderNumber = onum) then
    rs.map fun r =>
      if r.orderNumber = onum then
        { r with flagged := .b fl, lastUpdated := now }
      else r
  else
    rs ++ [{ orderNumber := onum, flagged := .b fl, lastUpdated := now }]

/-- The response shape `{ data, total, page, totalPages }` of the paginated
endpoints. -/
structure Paged where
  data : List Record
  total : Nat
  page : Nat
  totalPages : Nat
deriving DecidableEq, Repr

/-- JS `Math.ceil(total / limit)` on naturals, for `limit > 0`. -/
def jsCeilNat (total limit : Nat) : Nat := (total + limit - 1) / limit

/-- Baseline read order `orderBy('lastUpdated', 'desc')` (Firestore
breaks ties by document name, descending here since the explicit order
is descending). -/
def luDescLe (a b : Record) : Bool :=
  decide (b.lastUpdated < a.lastUpdated) ||
    (decide (a.lastUpdated = b.lastUpdated) &&
      strLtb b.orderNumber a.orderNumber)

/-- The function `getPaginatedData` from server.js: fetch all (baseline order),
filter, slice `[(page-1)*limit, page*limit)`.  `filterFn` is the
caller-supplied predicate parameter. -/
def getPaginatedData (rs : Store) (page limit : Nat)
    (filterFn : Record → Bool) : Paged :=
  let sorted := rs.mergeSort luDescLe
  let data := sorted.filter filterFn
  let total := data.length
  let totalPages := jsCeilNat total limit
  let startIndex := (page - 1) * limit
  { data := (data.drop startIndex).take limit
    total := total
    page := page
    totalPages := totalPages }

/-- JS truthiness of the effective `flagged` value used by the issues
sort (`a.flagged === true || a.flagged === 'true'`). -/
def effFlag (r : Record) : Bool :=
  decide (r.flagged = .b true) || decide (r.flagged = .s "true")

/-- Status string resolution `item.upsStatus || item.status ||
item.orderStatus || ""` — stored documents never carry an `orderStatus`
field (cleanData renames it to `status`), so that fallback is `""`. -/
def statusOf (r : Record) : String :=
  if r.upsStatus ≠ "" then r.upsStatus
  else if r.status ≠ "" then r.status
  else ""

/-- The error vocabulary filter of `handleIssuesRequest`. -/
def isErrorStatus (r : Record) : Bool :=
  let s := statusOf r
  lowerContains s "exception" || lowerContains s "error" ||
    lowerContains s "issue" || lowerContains s "fail" ||
    lowerContains s "void" || lowerContains s "return"

/-- Recent-window read order `orderBy('shipDate', 'desc')` (document
name descending on ties, as above). -/
def shipDescLe (a b : Record) : Bool :=
  decide (b.shipDate < a.shipDate) ||
    (decide (a.shipDate = b.shipDate) &&
      strLtb b.orderNumber a.orderNumber)

/-- Models `combinedMap.set(d.orderNumber, d)` on a JS `Map` as an
insertion-ordered association list: an existing key keeps its position
and gets the new value; a new key is appended. -/
def mapSet (m : List Record) (d : Record) : List Record :=
  if m.any fun x => decide (x.orderNumber = d.orderNumber) then
    m.map fun x => if x.orderNumber = d.orderNumber then d else x
  else m ++ [d]

/-- Models `combinedMap.has(key)`. -/
def hasKey (m : List Record) (k : String) : Bool :=
  m.any fun x => decide (x.orderNumber = k)

/-- The merged, deduplicated issues list of `handleIssuesRequest`
(steps 1-3): all boolean-flagged documents, then all string-flagged
documents, then error-status documents from the 100 most recent (by
ship date) that are not already present. -/
def flaggedDocs (rs : Store) : List Record :=
  (rs.filter fun r => decide (r.flagged = .b true)) ++
    (rs.filter fun r => decide (r.flagged = .s "true"))

/-- Step 2's bounded window: the 100 most recent documents by ship
date. -/
def recentCandidates (rs : Store) : List Record :=
  (rs.mergeSort shipDescLe).take 100

/-- Step 2's error-vocabulary scan over the bounded window. -/
def errorDocs (rs : Store) : List Record :=
  (recentCandidates rs).filter isErrorStatus

def issuesMerged (rs : Store) : List Record :=
  (errorDocs rs).foldl
    (fun m d => if hasKey m d.orderNumber then m else m ++ [d])
    ((flaggedDocs rs).foldl mapSet [])

/-- The comparator of `handleIssuesRequest` step 4, as the reflexive
order `cmp a b ≤ 0`: flagged strictly first, then ship date descending. -/
def issuesLe (a b : Record) : Bool :=
  if effFlag a && !effFlag b then true
  else if !effFlag a && effFlag b then false
  else decide (b.shipDate ≤ a.shipDate)

/-- Two records the issues comparator ties (`cmp a b = 0`): same
effective flag and same ship date. -/
def issuesTie (a b : Record) : Bool :=
  effFlag a == effFlag b && decide (a.shipDate = b.shipDate)

/-- The handler `handleIssuesRequest` from server.js: merged list, stably sorted
(flags first, ship date descending), never paginated
(`totalPages = 1`, `page = 1`). -/
def handleIssuesRequest (rs : Store) : Paged :=
  let mergedList := (issuesMerged rs).mergeSort issuesLe
  { data := mergedList
    total := mergedList.length
    page := 1
    totalPages := 1 }

/-- Models a `db.collection(...).doc(k)` style lookup: the first (and in a
well-formed store, only) record keyed by `k`. -/
def lookupRec (rs : Store) (k : String) : Option Record :=
  rs.find? fun x => decide (x.orderNumber = k)

/-! ### Arithmetic helper: the JS `Math.ceil` idiom -/

/-- The value `jsCeilDiv a b` is the exact rational ceiling of `a / b` for a
positive divisor: the server's `Math.ceil(x / 60000)` computes the true
ceiling of the remaining minutes. -/
theorem jsCeilDiv_eq_ceil (a b : Int) (hb : 0 < b) :
    jsCeilDiv a b = ⌈((a : ℚ) / (b : ℚ))⌉ := by
  unfold jsCeilDiv
  have h := Int.ediv_add_emod (a + b - 1) b
  have h2 : 0 ≤ (a + b - 1) % b := Int.emod_nonneg _ (ne_of_gt hb)
  have h3 : (a + b - 1) % b < b := Int.emod_lt_of_pos _ hb
  have hbq : (0 : ℚ) < (b : ℚ) := by exact_mod_cast hb
  symm
  rw [Int.ceil_eq_iff]
  constructor
  · rw [lt_div_iff₀ hbq]
    have : ((a + b - 1) / b - 1) * b < a := by
      have e1 : ((a + b - 1) / b - 1) * b = b * ((a + b - 1) / b) - b := by
        ring
      omega
    calc ((((a + b - 1) / b : Int) : ℚ) - 1) * (b : ℚ)
        = ((((a + b - 1) / b - 1 : Int) * b : Int) : ℚ) := by push_cast; ring
      _ < ((a : Int) : ℚ) := by exact_mod_cast this
  · rw [div_le_iff₀ hbq]
    have : a ≤ ((a + b - 1) / b) * b := by
      have e1 : ((a + b - 1) / b) * b = b * ((a + b - 1) / b) := by ring
      omega
    calc ((a : Int) : ℚ)
        ≤ ((((a + b - 1) / b) * b : Int) : ℚ) := by exact_mod_cast this
      _ = (((a + b - 1) / b : Int) : ℚ) * (b : ℚ) := by push_cast; ring

/-! ### C1: terminal delivered state short-circuits the freshness gate -/

/-- C1: a `POST /tracking/single` request whose tracking number has a
stored match (the query's first document) that is delivered — boolean
`delivered` set, or carrier status containing "delivered"
case-insensitively — returns that cached record unchanged, leaves the
store untouched, and never reaches the carrier lookup. -/
theorem refresh_terminal_serves_cache
    (rs : Store) (tn : String) (now : Int) (randomStatus : String)
    (d : Record) (htn : tn ≠ "")
    (hd : firstMatch rs tn = some d)
    (hterm : d.delivered = true ∨
      (d.upsStatus ≠ "" ∧ lowerContains d.upsStatus "delivered" = true)) :
    trackingSingle rs tn now randomStatus = (.record d, rs, false) := by
  unfold trackingSingle
  rw [if_neg htn]
  unfold firstMatch at hd
  simp only [hd, if_pos hterm]

/-- Concrete instance of `refresh_terminal_serves_cache`: a record whose
status text reads "Delivered" (even with `delivered == false` and a
stale timestamp) is served from cache with no upstream call. -/
def rTermW : Record :=
  { orderNumber := "ORD-T", trackingNumber := "1ZT",
    upsStatus := "Delivered", delivered := false, lastUpdated := 0 }

theorem refresh_terminal_serves_cache_witness :
    trackingSingle [rTermW] "1ZT" 999999999 "Exception" =
      (.record rTermW, [rTermW], false) :=
  refresh_terminal_serves_cache [rTermW] "1ZT" 999999999 "Exception"
    rTermW (by decide) (by decide) (Or.inr ⟨by decide, by decide⟩)

/-! ### C8: freshness window serves from cache (corrected) -/

/-- C8 as frozen is refuted by the JS truthiness guard
`data.lastUpdated && ...`: a stored record whose `lastUpdated` is `0`
(falsy) is treated as a cache miss even when `now - lastUpdated` is
within the cooldown, so the carrier lookup fires and the store is
rewritten.  Concretely: a non-delivered record with `lastUpdated = 0`
refreshed at `now = 5` (well inside 30 minutes) triggers the upstream
call and a store write. -/
def rStaleZero : Record :=
  { orderNumber := "ORD-8", trackingNumber := "1Z8",
    upsStatus := "In Transit", delivered := false, lastUpdated := 0 }

theorem refresh_fresh_claim_counterexample :
    rStaleZero.delivered = false ∧
    lowerContains rStaleZero.upsStatus "delivered" = false ∧
    (5 - rStaleZero.lastUpdated < SYNC_COOLDOWN_MS) ∧
    (trackingSingle [rStaleZero] "1Z8" 5 "Exception").2.2 = true ∧
    (trackingSingle [rStaleZero] "1Z8" 5 "Exception").2.1 ≠ [rStaleZero] := by
  refine ⟨by decide, by decide, by decide, by decide, by decide⟩

/-- C8 (amended): for a stored record that is the query's first match
for its tracking number, is not in the delivered terminal state, and has
a truthy (nonzero) `lastUpdated = T`, any refresh at `now` with
`now - T < SYNC_COOLDOWN_MS` returns the cached record, makes no carrier
call, and performs no store write. -/
theorem refresh_fresh_serves_cache
    (rs : Store) (tn : String) (now : Int) (randomStatus : String)
    (d : Record) (htn : tn ≠ "")
    (hd : firstMatch rs tn = some d)
    (hterm1 : d.delivered = false)
    (hterm2 : lowerContains d.upsStatus "delivered" = false)
    (hlu : d.lastUpdated ≠ 0)
    (hfresh : now - d.lastUpdated < SYNC_COOLDOWN_MS) :
    trackingSingle rs tn now randomStatus = (.record d, rs, false) := by
  unfold trackingSingle
  rw [if_neg htn]
  unfold firstMatch at hd
  have hnot : ¬(d.delivered = true ∨
      (d.upsStatus ≠ "" ∧ lowerContains d.upsStatus "delivered" = true)) := by
    rintro (h | ⟨-, h⟩)
    · rw [hterm1] at h; exact Bool.false_ne_true h
    · rw [hterm2] at h; exact Bool.false_ne_true h
  simp only [hd, if_neg hnot, if_pos (And.intro hlu hfresh)]

/-- Concrete instance of `refresh_fresh_serves_cache`. -/
def rFreshW : Record :=
  { orderNumber := "ORD-F", trackingNumber := "1ZF",
    upsStatus := "In Transit", delivered := false, lastUpdated := 1000 }

theorem refresh_fresh_serves_cache_witness :
    trackingSingle [rFreshW] "1ZF" 2000 "Delivered" =
      (.record rFreshW, [rFreshW], false) :=
  refresh_fresh_serves_cache [rFreshW] "1ZF" 2000 "Delivered" rFreshW
    (by decide) (by decide) (by decide) (by decide) (by decide) (by decide)

/-! ### C2: bulk-sync cooldown gate -/

/-- C2: a bulk sync issued while SyncMeta exists and
`now - lastSync < SYNC_COOLDOWN_MS` returns `skipped` carrying the exact
ceiling of the remaining minutes until eligibility, makes no Order
Source call, writes nothing, and leaves `lastSync` unchanged; a second
call inside the same window therefore skips again against the same
`lastSync`. -/
theorem bulk_sync_cooldown_idempotent
    (st : ServerState) (t now1 now2 : Int)
    (up1 up2 : Except String (List RawOrder))
    (hm : st.meta = some t)
    (h1 : now1 - t < SYNC_COOLDOWN_MS)
    (h2 : now2 - t < SYNC_COOLDOWN_MS) :
    syncOrders st now1 up1 =
      (.skipped ⌈((SYNC_COOLDOWN_MS - (now1 - t) : Int) : ℚ) / 60000⌉,
       st, false) ∧
    syncOrders (syncOrders st now1 up1).2.1 now2 up2 =
      (.skipped ⌈((SYNC_COOLDOWN_MS - (now2 - t) : Int) : ℚ) / 60000⌉,
       st, false) := by
  have hceil1 := jsCeilDiv_eq_ceil (SYNC_COOLDOWN_MS - (now1 - t)) 60000
    (by norm_num)
  have hceil2 := jsCeilDiv_eq_ceil (SYNC_COOLDOWN_MS - (now2 - t)) 60000
    (by norm_num)
  have k1 : syncOrders st now1 up1 =
      (.skipped (jsCeilDiv (SYNC_COOLDOWN_MS - (now1 - t)) 60000),
       st, false) := by
    simp only [syncOrders, hm]
    rw [if_pos h1]
  have k2 : syncOrders st now2 up2 =
      (.skipped (jsCeilDiv (SYNC_COOLDOWN_MS - (now2 - t)) 60000),
       st, false) := by
    simp only [syncOrders, hm]
    rw [if_pos h2]
  refine ⟨by rw [k1, hceil1]; norm_num, ?_⟩
  rw [k1]
  show syncOrders st now2 up2 = _
  rw [k2, hceil2]
  norm_num

theorem bulk_sync_cooldown_idempotent_witness :
    syncOrders ⟨[], some 1000⟩ 1001 (.ok []) =
      (.skipped ⌈((SYNC_COOLDOWN_MS - ((1001 : Int) - 1000) : Int) : ℚ)
          / 60000⌉,
       (⟨[], some 1000⟩ : ServerState), false) ∧
    syncOrders (syncOrders ⟨[], some 1000⟩ 1001 (.ok [])).2.1 2000
        (.error "boom") =
      (.skipped ⌈((SYNC_COOLDOWN_MS - ((2000 : Int) - 1000) : Int) : ℚ)
          / 60000⌉,
       (⟨[], some 1000⟩ : ServerState), false) :=
  bulk_sync_cooldown_idempotent ⟨[], some 1000⟩ 1000 1001 2000
    (.ok []) (.error "boom") rfl (by decide) (by decide)

/-! ### C9: failed upstream call leaves state unchanged -/

/-- C9: if the bulk-sync gate passes (no cooldown skip) and the Order
Source call fails, the handler surfaces the error (500 branch) with the
entire state — records and SyncMeta — unchanged; any later request on
that unchanged state at a time `≥ now` passes the gate again (it
reaches the upstream call and can never answer `skipped`). -/
theorem bulk_sync_failure_preserves_state
    (st : ServerState) (now : Int) (e : String)
    (hgate : syncSkips st now = false) :
    syncOrders st now (.error e) = (.err e, st, true) ∧
    ∀ (nowq : Int) (upq : Except String (List RawOrder)), now ≤ nowq →
      (syncOrders st nowq upq).2.2 = true ∧
      ∀ m, (syncOrders st nowq upq).1 ≠ .skipped m := by
  have hrun : ∀ (nowq : Int) (upq : Except String (List RawOrder)),
      syncSkips st nowq = false →
      syncOrders st nowq upq =
        (match upq with
          | .error e2 => (SyncResp.err e2, st, true)
          | .ok raws =>
            (SyncResp.ok raws.length,
             ⟨(raws.map (cleanData · nowq)).foldl upsertClean st.records,
              some nowq⟩, true)) := by
    intro nowq upq hskip
    rcases hsm : st.meta with _ | t
    · cases upq <;> simp only [syncOrders, hsm]
    · unfold syncSkips at hskip
      rw [hsm] at hskip
      have hnl : ¬(nowq - t < SYNC_COOLDOWN_MS) := by simpa using hskip
      cases upq <;> simp only [syncOrders, hsm] <;> rw [if_neg hnl]
  have hskipq : ∀ nowq, now ≤ nowq → syncSkips st nowq = false := by
    intro nowq hle
    unfold syncSkips at hgate ⊢
    rcases hsm : st.meta with _ | t
    · rfl
    · rw [hsm] at hgate
      have hg : ¬(now - t < SYNC_COOLDOWN_MS) := by simpa using hgate
      have hgq : ¬(nowq - t < SYNC_COOLDOWN_MS) := by omega
      simpa using hgq
  refine ⟨by rw [hrun now _ hgate], ?_⟩
  intro nowq upq hle
  rw [hrun nowq upq (hskipq nowq hle)]
  cases upq with
  | error e2 => exact ⟨rfl, fun m h => nomatch h⟩
  | ok raws => exact ⟨rfl, fun m h => nomatch h⟩

theorem bulk_sync_failure_preserves_state_witness :
    syncOrders ⟨[], none⟩ 0 (.error "down") =
      (.err "down", (⟨[], none⟩ : ServerState), true) ∧
    (0 : Int) ≤ 5 ∧
    (syncOrders ⟨[], none⟩ 5 (.ok [])).2.2 = true :=
  ⟨(bulk_sync_failure_preserves_state ⟨[], none⟩ 0 "down" (by decide)).1,
   by decide,
   ((bulk_sync_failure_preserves_state ⟨[], none⟩ 0 "down" (by decide)).2
      5 (.ok []) (by decide)).1⟩

/-! ### C7 / C10: pagination -/

/-- Splitting a list into `n` consecutive `k`-chunks and concatenating
them reproduces the list, provided `n` chunks cover its length. -/
theorem join_chunks {α : Type} (k : Nat) :
    ∀ (n : Nat) (l : List α), l.length ≤ n * k →
      ((List.range n).map fun i => (l.drop (i * k)).take k).flatten = l := by
  intro n
  induction n with
  | zero =>
    intro l h
    simp only [Nat.zero_mul, Nat.le_zero, List.length_eq_zero] at h
    subst h
    simp
  | succ n ih =>
    intro l h
    rw [Nat.succ_mul] at h
    rw [List.range_succ_eq_map]
    simp only [List.map_cons, List.map_map, List.flatten_cons,
      Nat.zero_mul, List.drop_zero]
    have hfun :
        ((fun i => (l.drop (i * k)).take k) ∘ Nat.succ) =
          fun i => ((l.drop k).drop (i * k)).take k := by
      funext i
      simp only [Function.comp_apply]
      rw [List.drop_drop]
      rw [Nat.succ_mul, Nat.add_comm]
    rw [hfun, ih (l.drop k) (by simp only [List.length_drop]; omega)]
    exact List.take_append_drop k l

/-- The page count covers the whole list: `total ≤ totalPages * limit`. -/
theorem le_jsCeilNat_mul (m k : Nat) (hk : 0 < k) :
    m ≤ jsCeilNat m k * k := by
  unfold jsCeilNat
  rw [Nat.mul_comm]
  have h1 := Nat.div_add_mod (m + k - 1) k
  have h2 : (m + k - 1) % k < k := Nat.mod_lt _ hk
  omega

/-- C7: for any record collection, filter predicate and page size
`limit > 0`, concatenating the `data` arrays of `getPaginatedData` for
pages `1 .. totalPages` yields exactly the filtered record list — every
element once, in the filtered order. -/
theorem pagination_identity
    (rs : Store) (limit : Nat) (f : Record → Bool) (hl : 0 < limit) :
    ((List.range ((getPaginatedData rs 1 limit f).totalPages)).map
        fun p => (getPaginatedData rs (p + 1) limit f).data).flatten =
      (rs.mergeSort luDescLe).filter f := by
  simp only [getPaginatedData, Nat.add_sub_cancel]
  exact join_chunks limit _ _
    (le_jsCeilNat_mul ((rs.mergeSort luDescLe).filter f).length limit hl)

def rPagA : Record :=
  { orderNumber := "ORD-A", trackingNumber := "1ZA", lastUpdated := 900 }

def rPagB : Record :=
  { orderNumber := "ORD-B", trackingNumber := "1ZB", lastUpdated := 400 }

theorem pagination_identity_witness :
    0 < 1 ∧
    ((List.range ((getPaginatedData [rPagA, rPagB] 1 1
            (fun r => decide (r.trackingNumber ≠ ""))).totalPages)).map
        fun p => (getPaginatedData [rPagA, rPagB] (p + 1) 1
            (fun r => decide (r.trackingNumber ≠ ""))).data).flatten =
      ([rPagA, rPagB].mergeSort luDescLe).filter
        (fun r => decide (r.trackingNumber ≠ "")) :=
  ⟨by decide,
   pagination_identity [rPagA, rPagB] 1
     (fun r => decide (r.trackingNumber ≠ "")) (by decide)⟩

/-- C10: when the filtered set is empty, `getPaginatedData` answers
`data = []`, `total = 0` and `totalPages = 0` (not 1), echoing the
requested page number. -/
theorem getPage_empty_total
    (rs : Store) (page limit : Nat) (f : Record → Bool)
    (hl : 0 < limit)
    (hempty : (rs.mergeSort luDescLe).filter f = []) :
    getPaginatedData rs page limit f =
      { data := [], total := 0, page := page, totalPages := 0 } := by
  simp only [getPaginatedData, hempty, List.length_nil, List.drop_nil,
    List.take_nil]
  have : jsCeilNat 0 limit = 0 := by
    unfold jsCeilNat
    exact Nat.div_eq_of_lt (by omega)
  rw [this]

theorem getPage_empty_total_witness :
    0 < 25 ∧
    getPaginatedData [] 3 25 (fun _ => true) =
      { data := [], total := 0, page := 3, totalPages := 0 } :=
  ⟨by decide,
   getPage_empty_total [] 3 25 (fun _ => true) (by decide) (by simp)⟩

/-! ### Store lookup machinery -/

/-- In a store with pairwise-distinct keys, looking a member record up
by its own key finds exactly it. -/
theorem lookupRec_eq_of_nodup :
    ∀ (rs : Store) (r : Record),
      (rs.map (·.orderNumber)).Nodup → r ∈ rs →
      lookupRec rs r.orderNumber = some r
  | [], r, _, hr => absurd hr (List.not_mem_nil r)
  | a :: t, r, hnd, hr => by
    rw [List.map_cons, List.nodup_cons] at hnd
    rcases List.mem_cons.mp hr with h | h
    · subst h
      exact List.find?_cons_of_pos _ (by simp)
    · have hne : a.orderNumber ≠ r.orderNumber := by
        intro he
        exact hnd.1 (he ▸ List.mem_map_of_mem _ h)
      unfold lookupRec
      rw [List.find?_cons_of_neg _ (by simpa using hne)]
      exact lookupRec_eq_of_nodup t r hnd.2 h

/-- Lookup by key commutes with mapping a key-preserving update over
the store. -/
theorem find?_map_keyfix (rs : Store) (g : Record → Record)
    (hg : ∀ x, (g x).orderNumber = x.orderNumber) (k : String) :
    ((rs.map g).find? fun x => decide (x.orderNumber = k)) =
      (rs.find? fun x => decide (x.orderNumber = k)).map g := by
  induction rs with
  | nil => rfl
  | cons a t ih =>
    by_cases hak : a.orderNumber = k
    · rw [List.map_cons, List.find?_cons_of_pos _ (by simp [hg, hak]),
        List.find?_cons_of_pos _ (by simp [hak])]
      rfl
    · rw [List.map_cons, List.find?_cons_of_neg _ (by simp [hg, hak]),
        List.find?_cons_of_neg _ (by simp [hak])]
      exact ih

/-- The update applied inside `upsertClean` is key-preserving. -/
theorem upsert_update_keyfix (c : CleanData) :
    ∀ x : Record,
      ((if x.orderNumber = c.orderNumber then applyClean x c
        else x)).orderNumber = x.orderNumber := by
  intro x
  split
  · next h => exact h.symm
  · rfl

/-- Upserting a payload does not disturb lookups at other keys. -/
theorem upsertClean_lookup_other (rs : Store) (c : CleanData) (k : String)
    (hk : k ≠ c.orderNumber) :
    lookupRec (upsertClean rs c) k = lookupRec rs k := by
  unfold upsertClean lookupRec
  split
  · rw [find?_map_keyfix rs _ (upsert_update_keyfix c) k]
    cases h : rs.find? fun x => decide (x.orderNumber = k) with
    | none => rfl
    | some x =>
      have hx : x.orderNumber = k := by simpa using List.find?_some h
      simp only [Option.map_some']
      rw [if_neg (by rw [hx]; exact hk)]
  · rw [List.find?_append]
    have hnk : ¬((freshOfClean c).orderNumber = k) := by
      show ¬(c.orderNumber = k)
      exact fun h => hk h.symm
    rw [List.find?_cons_of_neg _ (by simpa using hnk)]
    simp only [List.find?_nil, Option.or_none]

/-- Upserting a payload whose key is present replaces that record by
its merged form. -/
theorem upsertClean_lookup_self (rs : Store) (c : CleanData) (r : Record)
    (hr : lookupRec rs c.orderNumber = some r) :
    lookupRec (upsertClean rs c) c.orderNumber =
      some (applyClean r c) := by
  have hrk : r.orderNumber = c.orderNumber := by
    simpa using List.find?_some hr
  have hany :
      (rs.any fun x => decide (x.orderNumber = c.orderNumber)) = true :=
    List.any_eq_true.mpr
      ⟨r, List.mem_of_find?_eq_some hr, by simpa using hrk⟩
  unfold upsertClean lookupRec
  rw [if_pos hany]
  rw [find?_map_keyfix rs _ (upsert_update_keyfix c) c.orderNumber]
  unfold lookupRec at hr
  rw [hr]
  simp only [Option.map_some']
  rw [if_pos hrk]

/-- Folding a batch of upserts over the store does not disturb lookups
at keys absent from the batch. -/
theorem foldl_upsert_lookup_other :
    ∀ (cleans : List CleanData) (rs : Store) (k : String),
      (∀ c ∈ cleans, c.orderNumber ≠ k) →
      lookupRec (cleans.foldl upsertClean rs) k = lookupRec rs k
  | [], _, _, _ => rfl
  | c :: rest, rs, k, hk => by
    simp only [List.foldl_cons]
    rw [foldl_upsert_lookup_other rest (upsertClean rs c) k
      (fun c2 h2 => hk c2 (List.mem_cons_of_mem _ h2))]
    exact upsertClean_lookup_other rs c k
      (fun he => hk c (List.mem_cons_self _ _) he.symm)

/-- Folding a batch of upserts with pairwise-distinct keys at a key
present in the batch produces the merge of the stored record with that
key's (unique) payload. -/
theorem foldl_upsert_lookup_self :
    ∀ (cleans : List CleanData) (rs : Store) (c : CleanData) (r : Record),
      c ∈ cleans → (cleans.map (·.orderNumber)).Nodup →
      lookupRec rs c.orderNumber = some r →
      lookupRec (cleans.foldl upsertClean rs) c.orderNumber =
        some (applyClean r c)
  | [], _, _, _, hc, _, _ => absurd hc (List.not_mem_nil _)
  | d :: rest, rs, c, r, hc, hnd, hr => by
    rw [List.map_cons, List.nodup_cons] at hnd
    simp only [List.foldl_cons]
    rcases List.mem_cons.mp hc with he | hmem
    · subst he
      rw [foldl_upsert_lookup_other rest (upsertClean rs c) c.orderNumber
        (fun e hemem heq => hnd.1 (heq ▸ List.mem_map_of_mem _ hemem))]
      exact upsertClean_lookup_self rs c r hr
    · have hdne : d.orderNumber ≠ c.orderNumber := by
        intro he
        exact hnd.1 (he ▸ List.mem_map_of_mem _ hmem)
      refine foldl_upsert_lookup_self rest (upsertClean rs d) c r hmem
        hnd.2 ?_
      rw [upsertClean_lookup_other rs d c.orderNumber (Ne.symm hdne)]
      exact hr

/-- The result of `POST /sync/orders` when the cooldown gate passes and
the upstream call succeeds. -/
theorem syncOrders_run (st : ServerState) (now : Int)
    (raws : List RawOrder) (hgate : syncSkips st now = false) :
    syncOrders st now (.ok raws) =
      (.ok raws.length,
       ⟨(raws.map (cleanData · now)).foldl upsertClean st.records,
        some now⟩, true) := by
  rcases hsm : st.meta with _ | t
  · simp only [syncOrders, hsm]
  · unfold syncSkips at hgate
    rw [hsm] at hgate
    have hnl : ¬(now - t < SYNC_COOLDOWN_MS) := by simpa using hgate
    simp only [syncOrders, hsm]
    rw [if_neg hnl]

/-! ### C3: bulk-sync upsert frame (corrected) -/

/-- A record present before a bulk sync, in the delivered+flagged state,
whose order number is re-listed by the Order Source. -/
def rPre : Record :=
  { orderId := "SS-0", orderNumber := "ORD-1", customerName := "Ann",
    customerEmail := "a@example.com", items := "Widget x1", shipDate := 50,
    trackingNumber := "1Z1", carrierCode := "ups", status := "shipped",
    lastUpdated := 100, upsStatus := "Delivered", delivered := true,
    flagged := .b true, labelCost := 7,
    location := "Front Porch, Destination",
    expectedDelivery := "Delivered", trackingUrl := "https://e" }

/-- The re-listed raw item for the same order number. -/
def rawNew : RawOrder :=
  { orderId := "SS-9", orderNumber := "ORD-1", customerName := "Ann",
    customerEmail := "a@example.com", items := "Widget x1", shipDate := 60,
    trackingNumber := "1Z1", carrierCode := "ups", orderStatus := "shipped",
    shipmentCost := 5, insuranceCost := 1 }

/-- C3 as frozen is refuted: `cleanData` includes
`upsStatus: 'Pending'`, `delivered: false`, `flagged: false` in the
merge-set payload, so the bulk-sync upsert overwrites those
carrier-state fields on a matched record instead of leaving them
unchanged.  Concretely, a delivered record re-listed by the Order
Source comes out with `upsStatus = "Pending"` and `delivered = false`. -/
theorem bulk_sync_frame_counterexample :
    rPre.delivered = true ∧ rPre.upsStatus = "Delivered" ∧
    (lookupRec (syncOrders ⟨[rPre], none⟩ 200 (.ok [rawNew])).2.1.records
        "ORD-1").map (fun x => (x.upsStatus, x.delivered)) =
      some ("Pending", false) :=
  ⟨rfl, rfl, by decide⟩

/-- C3 (amended): the bulk-sync upsert on an existing matched record
leaves exactly the fields absent from the `cleanData` payload —
`location`, `expectedDelivery`, `trackingUrl` — unchanged, writes the
order-level fields from the raw item, and resets the cache fields to
`upsStatus = "Pending"`, `delivered = false`, `flagged = false`,
`lastUpdated = now`. -/
theorem bulk_sync_merge_frame
    (st : ServerState) (now : Int) (raws : List RawOrder)
    (s : RawOrder) (r : Record)
    (hgate : syncSkips st now = false)
    (hrnd : (raws.map (·.orderNumber)).Nodup)
    (hnd : (st.records.map (·.orderNumber)).Nodup)
    (hs : s ∈ raws) (hr : r ∈ st.records)
    (hkey : r.orderNumber = s.orderNumber) :
    ∃ r',
      lookupRec (syncOrders st now (.ok raws)).2.1.records s.orderNumber =
        some r' ∧
      r'.location = r.location ∧
      r'.expectedDelivery = r.expectedDelivery ∧
      r'.trackingUrl = r.trackingUrl ∧
      r'.upsStatus = "Pending" ∧
      r'.delivered = false ∧
      r'.flagged = .b false ∧
      r'.lastUpdated = now ∧
      r'.orderId = s.orderId ∧
      r'.orderNumber = s.orderNumber ∧
      r'.customerName = s.customerName ∧
      r'.customerEmail = s.customerEmail ∧
      r'.items = s.items ∧
      r'.shipDate = s.shipDate ∧
      r'.trackingNumber = s.trackingNumber ∧
      r'.carrierCode = s.carrierCode ∧
      r'.status = s.orderStatus ∧
      r'.labelCost = s.shipmentCost + s.insuranceCost := by
  rw [syncOrders_run st now raws hgate]
  have hlk : lookupRec st.records (cleanData s now).orderNumber = some r := by
    show lookupRec st.records s.orderNumber = some r
    rw [← hkey]
    exact lookupRec_eq_of_nodup st.records r hnd hr
  have hmem : cleanData s now ∈ raws.map (cleanData · now) :=
    List.mem_map_of_mem _ hs
  have hcnd : ((raws.map (cleanData · now)).map (·.orderNumber)).Nodup := by
    rw [List.map_map]
    exact hrnd
  have hfound := foldl_upsert_lookup_self (raws.map (cleanData · now))
    st.records (cleanData s now) r hmem hcnd hlk
  exact ⟨applyClean r (cleanData s now), hfound, rfl, rfl, rfl, rfl, rfl,
    rfl, rfl, rfl, rfl, rfl, rfl, rfl, rfl, rfl, rfl, rfl, rfl⟩

theorem bulk_sync_merge_frame_witness :
    ∃ r',
      lookupRec (syncOrders ⟨[rPre], none⟩ 200
          (.ok [rawNew])).2.1.records rawNew.orderNumber = some r' ∧
      r'.location = rPre.location ∧
      r'.expectedDelivery = rPre.expectedDelivery ∧
      r'.trackingUrl = rPre.trackingUrl ∧
      r'.upsStatus = "Pending" ∧
      r'.delivered = false ∧
      r'.flagged = .b false ∧
      r'.lastUpdated = 200 ∧
      r'.orderId = rawNew.orderId ∧
      r'.orderNumber = rawNew.orderNumber ∧
      r'.customerName = rawNew.customerName ∧
      r'.customerEmail = rawNew.customerEmail ∧
      r'.items = rawNew.items ∧
      r'.shipDate = rawNew.shipDate ∧
      r'.trackingNumber = rawNew.trackingNumber ∧
      r'.carrierCode = rawNew.carrierCode ∧
      r'.status = rawNew.orderStatus ∧
      r'.labelCost = rawNew.shipmentCost + rawNew.insuranceCost :=
  bulk_sync_merge_frame ⟨[rPre], none⟩ 200 [rawNew] rawNew rPre
    (by decide) (by decide) (by decide) (by decide) (by decide) (by decide)

/-! ### C4: flag preservation (corrected) -/

/-- C4 as frozen is refuted: the bulk-sync merge payload contains
`flagged: false`, so a flagged record whose order number is re-listed by
the Order Source has its flag cleared by `POST /sync/orders` — an
automatic clear without operator action. -/
theorem flag_clear_counterexample :
    rPre.flagged = .b true ∧
    (lookupRec (syncOrders ⟨[rPre], none⟩ 200 (.ok [rawNew])).2.1.records
        "ORD-1").map (·.flagged) = some (.b false) :=
  ⟨rfl, by decide⟩

/-- C4 (amended): `flagged == true` survives every core operation except
an explicit flag action with `flagged = false` and the bulk-sync upsert
of a record whose order number is re-listed by the Order Source.
Specifically: (1) `POST /tracking/single` preserves every record's
`flagged` field verbatim; (2) `POST /flag` with `flagged = true` leaves
a flagged record flagged; (3) `POST /sync/orders` leaves any record
whose order number is not among the fetched items entirely unchanged,
in particular still flagged. -/
theorem flag_preservation_amended :
    (∀ (rs : Store) (tn : String) (now : Int) (randomStatus : String),
      ((trackingSingle rs tn now randomStatus).2.1).map (·.flagged) =
        rs.map (·.flagged)) ∧
    (∀ (rs : Store) (onum : String) (now : Int) (r : Record),
      (rs.map (·.orderNumber)).Nodup → r ∈ rs → r.flagged = .b true →
      (lookupRec (flagOp rs onum true now) r.orderNumber).map (·.flagged) =
        some (.b true)) ∧
    (∀ (st : ServerState) (now : Int) (raws : List RawOrder) (r : Record),
      (st.records.map (·.orderNumber)).Nodup → r ∈ st.records →
      r.flagged = .b true →
      r.orderNumber ∉ raws.map (·.orderNumber) →
      (lookupRec (syncOrders st now (.ok raws)).2.1.records
          r.orderNumber).map (·.flagged) = some (.b true)) := by
  refine ⟨?_, ?_, ?_⟩
  · intro rs tn now randomStatus
    unfold trackingSingle
    by_cases htn : tn = ""
    · rw [if_pos htn]
    · rw [if_neg htn]
      rcases hq : (rs.filter fun r => decide (r.trackingNumber = tn)).head?
        with _ | d <;> simp only [hq] <;> repeat' split
      all_goals try rfl
      all_goals
        try dsimp only
        rw [List.map_map]
        apply List.map_congr_left
        intro r _
        try dsimp only [Function.comp]
        split <;> rfl
  · intro rs onum now r hnd hr hf
    unfold flagOp
    split
    · rw [lookupRec_eq_of_nodup rs r hnd hr]
      simp [hf]
    · split
      · unfold lookupRec
        rw [find?_map_keyfix rs _ (fun x => by split <;> rfl)
          r.orderNumber]
        have := lookupRec_eq_of_nodup rs r hnd hr
        unfold lookupRec at this
        rw [this]
        simp only [Option.map_some']
        split
        · rfl
        · simp [hf]
      · unfold lookupRec
        rw [List.find?_append]
        have := lookupRec_eq_of_nodup rs r hnd hr
        unfold lookupRec at this
        rw [this]
        simp [hf]
  · intro st now raws r hnd hr hf hnotin
    have hother : ∀ c ∈ raws.map (cleanData · now),
        c.orderNumber ≠ r.orderNumber := by
      intro c hc heq
      rcases List.mem_map.mp hc with ⟨s, hs, hcs⟩
      apply hnotin
      rw [← heq, ← hcs]
      exact List.mem_map_of_mem _ hs
    rcases hsm : st.meta with _ | t
    · simp only [syncOrders, hsm]
      rw [foldl_upsert_lookup_other _ _ _ hother,
        lookupRec_eq_of_nodup st.records r hnd hr]
      simp [hf]
    · by_cases hc : now - t < SYNC_COOLDOWN_MS
      · simp only [syncOrders, hsm]
        rw [if_pos hc]
        rw [lookupRec_eq_of_nodup st.records r hnd hr]
        simp [hf]
      · simp only [syncOrders, hsm]
        rw [if_neg hc]
        rw [foldl_upsert_lookup_other _ _ _ hother,
          lookupRec_eq_of_nodup st.records r hnd hr]
        simp [hf]

/-- A flagged in-transit record used to instantiate the amended flag
preservation. -/
def rFlagK : Record :=
  { orderNumber := "ORD-K", trackingNumber := "1ZK",
    upsStatus := "In Transit", delivered := false, flagged := .b true,
    lastUpdated := 10 }

theorem flag_preservation_amended_witness :
    ((trackingSingle [rFlagK] "1ZK" 99999999 "Delivered").2.1).map
        (·.flagged) = [rFlagK].map (·.flagged) ∧
    (lookupRec (flagOp [rFlagK] "OTHER" true 77) rFlagK.orderNumber).map
        (·.flagged) = some (.b true) ∧
    (lookupRec (syncOrders ⟨[rFlagK], none⟩ 7
          (.ok [rawNew])).2.1.records rFlagK.orderNumber).map
        (·.flagged) = some (.b true) :=
  ⟨flag_preservation_amended.1 [rFlagK] "1ZK" 99999999 "Delivered",
   flag_preservation_amended.2.1 [rFlagK] "OTHER" 77 rFlagK (by decide)
     (by decide) rfl,
   flag_preservation_amended.2.2 ⟨[rFlagK], none⟩ 7 [rawNew] rFlagK
     (by decide) (by decide) rfl (by decide)⟩

/-! ### Issues aggregation machinery -/

theorem hasKey_append (m1 m2 : List Record) (k : String) :
    hasKey (m1 ++ m2) k = (hasKey m1 k || hasKey m2 k) := by
  unfold hasKey
  exact List.any_append

/-- Feeding the JS `Map` documents whose keys are fresh and pairwise
distinct appends them in encounter order. -/
theorem foldl_mapSet_append :
    ∀ (docs : List Record) (m : List Record),
      (∀ d ∈ docs, hasKey m d.orderNumber = false) →
      (docs.map (·.orderNumber)).Nodup →
      docs.foldl mapSet m = m ++ docs
  | [], m, _, _ => by simp
  | d :: rest, m, hdisj, hnd => by
    rw [List.map_cons, List.nodup_cons] at hnd
    simp only [List.foldl_cons]
    have hfd := hdisj d (List.mem_cons_self _ _)
    unfold hasKey at hfd
    have hdm : mapSet m d = m ++ [d] := by
      unfold mapSet
      rw [if_neg (by simp [hfd])]
    rw [hdm]
    have hrec := foldl_mapSet_append rest (m ++ [d]) ?_ hnd.2
    · rw [hrec, List.append_assoc, List.singleton_append]
    · intro e he
      rw [hasKey_append]
      have h1 := hdisj e (List.mem_cons_of_mem _ he)
      have h2 : e.orderNumber ≠ d.orderNumber := fun heq =>
        hnd.1 (heq ▸ List.mem_map_of_mem _ he)
      have h3 : hasKey [d] e.orderNumber = false := by
        unfold hasKey
        simp only [List.any_cons, List.any_nil, Bool.or_false]
        exact decide_eq_false fun h => h2 h.symm
      rw [h1, h3]
      rfl

/-- The conditional inserts of step 3 append exactly the documents whose
keys are not already present. -/
theorem foldl_setIfAbsent :
    ∀ (docs : List Record) (m : List Record),
      (docs.map (·.orderNumber)).Nodup →
      docs.foldl (fun m2 d => if hasKey m2 d.orderNumber then m2
        else m2 ++ [d]) m =
        m ++ docs.filter (fun d => !hasKey m d.orderNumber)
  | [], m, _ => by simp
  | d :: rest, m, hnd => by
    rw [List.map_cons, List.nodup_cons] at hnd
    simp only [List.foldl_cons]
    by_cases hd : hasKey m d.orderNumber = true
    · rw [if_pos hd, foldl_setIfAbsent rest m hnd.2]
      congr 1
      rw [List.filter_cons]
      simp [hd]
    · have hdf : hasKey m d.orderNumber = false :=
        Bool.eq_false_iff.mpr hd
      rw [if_neg hd, foldl_setIfAbsent rest (m ++ [d]) hnd.2]
      have hfeq : rest.filter (fun e => !hasKey (m ++ [d]) e.orderNumber) =
          rest.filter (fun e => !hasKey m e.orderNumber) := by
        apply List.filter_congr
        intro e he
        rw [hasKey_append]
        have h2 : e.orderNumber ≠ d.orderNumber := fun heq =>
          hnd.1 (heq ▸ List.mem_map_of_mem _ he)
        have h3 : hasKey [d] e.orderNumber = false := by
          unfold hasKey
          simp only [List.any_cons, List.any_nil, Bool.or_false]
          exact decide_eq_false fun h => h2 h.symm
        rw [h3, Bool.or_false]
      rw [hfeq, List.append_assoc]
      congr 1
      rw [List.filter_cons]
      simp [hdf]

/-- Keys of a filtered store inherit distinctness. -/
theorem keys_filter_nodup (rs : Store) (p : Record → Bool)
    (hnd : (rs.map (·.orderNumber)).Nodup) :
    ((rs.filter p).map (·.orderNumber)).Nodup :=
  hnd.sublist ((List.filter_sublist rs).map _)

/-- The two flag queries of `handleIssuesRequest` return key-disjoint
document lists whose concatenation has pairwise-distinct keys. -/
theorem flaggedDocs_keys_nodup (rs : Store)
    (hnd : (rs.map (·.orderNumber)).Nodup) :
    ((flaggedDocs rs).map (·.orderNumber)).Nodup := by
  unfold flaggedDocs
  rw [List.map_append, List.nodup_append]
  refine ⟨keys_filter_nodup rs _ hnd, keys_filter_nodup rs _ hnd, ?_⟩
  intro k hk1 hk2
  rcases List.mem_map.mp hk1 with ⟨x, hx, hxk⟩
  rcases List.mem_map.mp hk2 with ⟨y, hy, hyk⟩
  have hxy : x = y :=
    List.inj_on_of_nodup_map hnd (List.mem_of_mem_filter hx)
      (List.mem_of_mem_filter hy) (hxk.trans hyk.symm)
  have hx2 := List.of_mem_filter hx
  have hy2 := List.of_mem_filter hy
  rw [hxy] at hx2
  simp only [decide_eq_true_eq] at hx2 hy2
  rw [hx2] at hy2
  exact FlagRep.noConfusion hy2

/-- The error-window scan also carries pairwise-distinct keys. -/
theorem errorDocs_keys_nodup (rs : Store)
    (hnd : (rs.map (·.orderNumber)).Nodup) :
    ((errorDocs rs).map (·.orderNumber)).Nodup := by
  unfold errorDocs recentCandidates
  have hms : ((rs.mergeSort shipDescLe).map (·.orderNumber)).Nodup :=
    (((List.mergeSort_perm rs shipDescLe).map (·.orderNumber)).nodup_iff).mpr
      hnd
  exact hms.sublist
    (((List.filter_sublist _).trans (List.take_sublist _ _)).map _)

/-- The merged issues list is: all flagged documents in query order,
followed by the error-window documents whose keys are new. -/
theorem issuesMerged_eq (rs : Store)
    (hnd : (rs.map (·.orderNumber)).Nodup) :
    issuesMerged rs =
      flaggedDocs rs ++
        (errorDocs rs).filter
          (fun d => !hasKey (flaggedDocs rs) d.orderNumber) := by
  unfold issuesMerged
  rw [foldl_mapSet_append (flaggedDocs rs) [] (fun d _ => rfl)
    (flaggedDocs_keys_nodup rs hnd)]
  rw [List.nil_append]
  exact foldl_setIfAbsent (errorDocs rs) (flaggedDocs rs)
    (errorDocs_keys_nodup rs hnd)

/-! ### C5: flagged records appear exactly once in the issues view -/

/-- C5: in a well-formed store (documents keyed by order number, hence
pairwise-distinct keys), every record with boolean `flagged == true`
appears exactly once in the unpaginated `data` of the issues view,
regardless of its `lastUpdated` age or status text. -/
theorem issues_flagged_exactly_once (rs : Store) (r : Record)
    (hnd : (rs.map (·.orderNumber)).Nodup) (hr : r ∈ rs)
    (hf : r.flagged = .b true) :
    (handleIssuesRequest rs).data.count r = 1 := by
  have hperm : List.Perm (handleIssuesRequest rs).data (issuesMerged rs) :=
    List.mergeSort_perm _ _
  rw [hperm.count_eq, issuesMerged_eq rs hnd, List.count_append]
  have hrs_nd : rs.Nodup := List.Nodup.of_map _ hnd
  have cflag : (flaggedDocs rs).count r = 1 := by
    unfold flaggedDocs
    rw [List.count_append]
    have c1 : (rs.filter fun x => decide (x.flagged = .b true)).count r
        = 1 := by
      rw [List.count_filter (by simp [hf])]
      exact List.count_eq_one_of_mem hrs_nd hr
    have c2 : (rs.filter fun x => decide (x.flagged = .s "true")).count r
        = 0 := by
      rw [List.count_eq_zero]
      intro hmem
      have hp := List.of_mem_filter hmem
      rw [hf] at hp
      exact FlagRep.noConfusion (of_decide_eq_true hp)
    rw [c1, c2]
  have c3 : ((errorDocs rs).filter
      (fun d => !hasKey (flaggedDocs rs) d.orderNumber)).count r = 0 := by
    rw [List.count_eq_zero]
    intro hmem
    have hp := List.of_mem_filter hmem
    have hink : hasKey (flaggedDocs rs) r.orderNumber = true := by
      unfold hasKey flaggedDocs
      apply List.any_eq_true.mpr
      exact ⟨r, List.mem_append_left _
        (List.mem_filter.mpr ⟨hr, by simp [hf]⟩), by simp⟩
    rw [hink] at hp
    exact Bool.noConfusion hp
  rw [cflag, c3]

/-- Two boolean-flagged records tied on ship date (named so that the
store list is already in the recent-window read order). -/
def rT1 : Record :=
  { orderNumber := "ORD-B", trackingNumber := "1ZB1", shipDate := 10,
    flagged := .b true, lastUpdated := 5 }

def rT2 : Record :=
  { orderNumber := "ORD-A", trackingNumber := "1ZA2", shipDate := 10,
    flagged := .b true, lastUpdated := 9 }

theorem issues_flagged_exactly_once_witness :
    ([rT1, rT2].map (·.orderNumber)).Nodup ∧
    rT1 ∈ [rT1, rT2] ∧ rT1.flagged = .b true ∧
    (handleIssuesRequest [rT1, rT2]).data.count rT1 = 1 :=
  ⟨by decide, by decide, rfl,
   issues_flagged_exactly_once [rT1, rT2] rT1 (by decide) (by decide) rfl⟩

/-! ### C6: issues output order -/

theorem issuesLe_trans : ∀ a b c : Record,
    issuesLe a b = true → issuesLe b c = true → issuesLe a c = true := by
  intro a b c
  unfold issuesLe
  cases haf : effFlag a <;> cases hbf : effFlag b <;>
    cases hcf : effFlag c <;> simp_all <;> omega

theorem issuesLe_total : ∀ a b : Record,
    (issuesLe a b || issuesLe b a) = true := by
  intro a b
  unfold issuesLe
  cases haf : effFlag a <;> cases hbf : effFlag b <;> simp_all <;> omega

/-- C6: in the issues view's output list, every flagged record
(effective flag: boolean `true` or string `'true'`, as the code
compares) precedes every non-flagged record; within a run of records
with equal effective flag, ship-date recency is non-increasing; and the
sort is stable: any two records the comparator ties (same effective
flag className and same ship date) keep their merged-list order in the
output. -/
theorem issues_priority_order (rs : Store) :
    ((handleIssuesRequest rs).data.Pairwise
      fun a b => effFlag b = true → effFlag a = true) ∧
    ((handleIssuesRequest rs).data.Pairwise
      fun a b => effFlag a = effFlag b → b.shipDate ≤ a.shipDate) ∧
    (∀ a b : Record, [a, b].Sublist (issuesMerged rs) →
      issuesTie a b = true →
      [a, b].Sublist (handleIssuesRequest rs).data) := by
  have hs := List.sorted_mergeSort issuesLe_trans issuesLe_total
    (issuesMerged rs)
  refine ⟨List.Pairwise.imp ?_ hs, List.Pairwise.imp ?_ hs, ?_⟩
  · intro a b hab hbf
    cases haf : effFlag a
    · unfold issuesLe at hab
      rw [haf, hbf] at hab
      simp at hab
    · rfl
  · intro a b hab heq
    unfold issuesLe at hab
    rw [heq] at hab
    cases hbf : effFlag b <;> rw [hbf] at hab <;> simpa using hab
  · intro a b hsub htie
    have hle : issuesLe a b = true := by
      unfold issuesTie at htie
      rw [Bool.and_eq_true] at htie
      have h1 : effFlag a = effFlag b := eq_of_beq htie.1
      have h2 : a.shipDate = b.shipDate := of_decide_eq_true htie.2
      unfold issuesLe
      rw [h1]
      cases hbf : effFlag b <;> simp [h2]
    exact List.pair_sublist_mergeSort issuesLe_trans issuesLe_total hle hsub

/-- The merged list evaluated on the concrete two-record store (the store
is already in recent-window order, so the sort is the identity). -/
theorem issuesMergedT_eq : issuesMerged [rT1, rT2] = [rT1, rT2] := by
  unfold issuesMerged errorDocs recentCandidates flaggedDocs
  rw [List.mergeSort_of_sorted (by decide)]
  decide

theorem issues_priority_order_witness :
    issuesTie rT1 rT2 = true ∧
    [rT1, rT2].Sublist (issuesMerged [rT1, rT2]) ∧
    [rT1, rT2].Sublist (handleIssuesRequest [rT1, rT2]).data :=
  ⟨by decide, by rw [issuesMergedT_eq],
   (issues_priority_order [rT1, rT2]).2.2 rT1 rT2
     (by rw [issuesMergedT_eq]) (by decide)⟩

end PackTrack